import Mathlib

/-!
Shallow embedding of the Kite options-chain updater:
`continuous_runner.py` (market-hours predicate and polling loop) and
`fetch_data.py` (the per-expiry update routine: startup checks, previous
open-interest parsing, per-instrument quote fold, row construction, and
the bounded sheet overwrite).  Times of day are modelled as seconds since
midnight IST, weekdays as Python `weekday()` indices (Monday = 0).
-/

namespace Kite

/-- Seconds since midnight for an IST wall-clock time `h:m:s`. -/
def secOfDay (h m s : Nat) : Nat := h * 3600 + m * 60 + s

/-- The shared shape of both market-hours checks:
`weekday < 5 and openB <= now.time() <= closeB`.
`continuous_runner.py` instantiates it at 09:07–15:35; the inline check in
`fetch_data.py` (written there as
`not (market_open <= current_time <= market_close) or now.weekday() >= 5`,
i.e. the negation of this conjunction) instantiates it at 09:10–15:35. -/
def marketOpenPred (openB closeB wd t : Nat) : Bool :=
  decide (wd < 5) && decide (openB ≤ t) && decide (t ≤ closeB)

/-- The function `is_market_open` from `continuous_runner.py`: weekday < 5 and
09:07:00 ≤ time ≤ 15:35:00 IST. -/
def is_market_open (wd t : Nat) : Bool :=
  marketOpenPred (secOfDay 9 7 0) (secOfDay 15 35 0) wd t

/-- The market gate at the top of `fetch_data.py`: the script proceeds iff
weekday < 5 and 09:10:00 ≤ time ≤ 15:35:00 IST; otherwise it prints and
calls `sys.exit(0)`. -/
def fetchDataMarketOpen (wd t : Nat) : Bool :=
  marketOpenPred (secOfDay 9 10 0) (secOfDay 15 35 0) wd t

/-- Process environment as `fetch_data.py` reads it: `os.getenv` yields
`None` (here `none`) or a string; `SHEET_ID`, `API_KEY`, `ACCESS_TOKEN`
plus existence of the Google credentials file. -/
structure Env where
  sheetId : Option String
  apiKey : Option String
  accessToken : Option String
  credsFileExists : Bool
deriving DecidableEq

/-- Python truthiness of an environment value: `not X` holds for `None`
and for the empty string. -/
def truthy : Option String → Bool
  | none => false
  | some s => !(s == "")

/-- Observable startup events of `fetch_data.py`, in program order:
the market gate, the `API_KEY`/`ACCESS_TOKEN` validation (line 40), the
`SHEET_ID`/credentials-file validation (line 49), and the first network
calls to the spreadsheet store / quote provider. -/
inductive Event where
  | exitMarketClosed
  | checkEnvKeys
  | raiseMissingKeys
  | checkSheetCfg
  | raiseMissingSheet
  | netCall (what : String)
deriving DecidableEq

/-- How the startup section of `fetch_data.py` terminates:
`sys.exit(0)` at the market gate, an uncaught `raise` at one of the two
credential checks, or falling through to the main per-expiry loop. -/
inductive Outcome where
  | exitZero
  | raised
  | proceeded
deriving DecidableEq

/-- The ordered event trace of the startup section of `fetch_data.py`
(lines 26–73): market gate first; then the `API_KEY`/`ACCESS_TOKEN` check
which raises when either is falsy; then the `SHEET_ID`/credentials-file
check which raises when either is missing; only after all three does the
script contact the spreadsheet store (and later the quote provider). -/
def startupTrace (env : Env) (wd t : Nat) : List Event :=
  if !fetchDataMarketOpen wd t then
    [Event.exitMarketClosed]
  else
    Event.checkEnvKeys ::
      (if !truthy env.apiKey || !truthy env.accessToken then
        [Event.raiseMissingKeys]
      else
        Event.checkSheetCfg ::
          (if !truthy env.sheetId || !env.credsFileExists then
            [Event.raiseMissingSheet]
          else
            [Event.netCall "gspread.authorize",
             Event.netCall "client.open_by_key",
             Event.netCall "kite.instruments"]))

/-- The startup outcome of `fetch_data.py` for a given environment,
weekday and time of day. -/
def startupOutcome (env : Env) (wd t : Nat) : Outcome :=
  if !fetchDataMarketOpen wd t then Outcome.exitZero
  else if !truthy env.apiKey || !truthy env.accessToken then Outcome.raised
  else if !truthy env.sheetId || !env.credsFileExists then Outcome.raised
  else Outcome.proceeded

/-! ### Parsing the previous open-interest snapshot (`fetch_data.py` lines 80–96) -/

/-- Numeric value of a list of decimal digit characters. -/
def digitsVal (cs : List Char) : Nat :=
  cs.foldl (fun n ch => n * 10 + (ch.toNat - Char.toNat '0')) 0

/-- Nonempty all-digit strings parse to their value; others raise. -/
def pyNatDigits (cs : List Char) : Option Nat :=
  if cs ≠ [] ∧ cs.all Char.isDigit then some (digitsVal cs) else none

/-- Model of Python `int(s)` on sheet cell strings: an optional sign
followed by a nonempty run of decimal digits; anything else raises
(`none`). -/
def pyInt (s : String) : Option Int :=
  match s.data with
  | [] => none
  | c :: cs =>
    if c = '-' then (pyNatDigits cs).map (fun n => -(n : Int))
    else if c = '+' then (pyNatDigits cs).map (fun n => (n : Int))
    else (pyNatDigits (c :: cs)).map (fun n => (n : Int))

/-- Unsigned part of `pyFloat`: digits with at most one decimal point
and at least one digit overall. -/
def pyFloatCore (cs : List Char) : Option ℚ :=
  match cs.splitOn '.' with
  | [a] => (pyNatDigits a).map (fun n => (n : ℚ))
  | [a, b] =>
    if (a ++ b) ≠ [] ∧ a.all Char.isDigit ∧ b.all Char.isDigit then
      some ((digitsVal a : ℚ) + (digitsVal b : ℚ) / ((10 : ℚ) ^ b.length))
    else none
  | _ => none

/-- Model of Python `float(s)` on sheet cell strings: an optional sign
in front of `pyFloatCore`; anything else raises (`none`). -/
def pyFloat (s : String) : Option ℚ :=
  match s.data with
  | [] => none
  | c :: cs =>
    if c = '-' then (pyFloatCore cs).map (fun q => -q)
    else if c = '+' then pyFloatCore cs
    else pyFloatCore (c :: cs)

/-- One strike's entry in `prev_oi_dict`: the previously stored call and
put open interest. -/
structure PrevEntry where
  call : Int
  put : Int
deriving DecidableEq

/-- The dict `prev_oi_dict`, modelled as an insertion-ordered association list
(Python dict) from strike to `PrevEntry`. -/
abbrev PrevOi := List (ℚ × PrevEntry)

/-- First-match association-list lookup (Python `dict` indexing/`get`). -/
def findKey (k : ℚ) : List (ℚ × α) → Option α
  | [] => none
  | p :: rest => if p.1 = k then some p.2 else findKey k rest

/-- Python `d[k] = v`: overwrite in place if the key exists, else append
(dicts preserve insertion order). -/
def dictInsert (d : PrevOi) (k : ℚ) (v : PrevEntry) : PrevOi :=
  if (findKey k d).isSome then
    d.map (fun p => if p.1 = k then (k, v) else p)
  else
    d ++ [(k, v)]

/-- The body of the `for row in existing_values[1:]` loop: read the
strike cell with `float(...)`, then each OI cell with
`int(...) if cell else 0`; an out-of-range index or a failed parse raises
and the row is skipped (`none`).  Evaluation order (strike, call OI,
put OI) matches lines 91–93. -/
def parsePrevRow (strikeCol callOiCol putOiCol : Nat) (row : List String) :
    Option (ℚ × PrevEntry) := do
  let sCell ← row.get? strikeCol
  let s ← pyFloat sCell
  let cCell ← row.get? callOiCol
  let c ← if cCell = "" then some 0 else pyInt cCell
  let pCell ← row.get? putOiCol
  let p ← if pCell = "" then some 0 else pyInt pCell
  some (s, ⟨c, p⟩)

/-- Construction of `prev_oi_dict` from `sheet.get_all_values()`
(lines 80–96): an empty table, or a first row missing any of the labels
`Strike`, `Call OI`, `Put OI`, yields the empty mapping; otherwise each
data row is parsed at the three label columns (first occurrence, as
`headers.index`), rows that raise being skipped by the bare `except`. -/
def buildPrevOi (table : List (List String)) : PrevOi :=
  match table with
  | [] => []
  | headers :: dataRows =>
    if "Strike" ∈ headers ∧ "Call OI" ∈ headers ∧ "Put OI" ∈ headers then
      let strikeCol := headers.findIdx (fun h => h == "Strike")
      let callOiCol := headers.findIdx (fun h => h == "Call OI")
      let putOiCol := headers.findIdx (fun h => h == "Put OI")
      dataRows.foldl
        (fun d row =>
          match parsePrevRow strikeCol callOiCol putOiCol row with
          | some sv => dictInsert d sv.1 sv.2
          | none => d)
        []
    else []

/-! ### Per-instrument quote fold (`fetch_data.py` lines 106–143) -/

/-- The fields of a quote the loop reads: `q["last_price"]`,
`q.get("oi", 0)`, `q.get("volume", 0)`. -/
structure Quote where
  last_price : ℚ
  oi : Int
  volume : Int
deriving DecidableEq

/-- The fields of a catalog instrument the loop reads:
`inst["instrument_token"]`, `inst["strike"]`, `inst["instrument_type"]`. -/
structure Instrument where
  instrument_token : Nat
  strike : ℚ
  instrument_type : String
deriving DecidableEq

/-- One populated side of `option_chain[strike]`:
`{"ltp": ..., "oi": ..., "chg_oi": ..., "vol": ...}`. -/
structure SideData where
  ltp : ℚ
  oi : Int
  chg_oi : Int
  vol : Int
deriving DecidableEq

/-- An entry `option_chain[strike] = {"call": ..., "put": ...}`; a side is `none`
while its dict is still the initial `{}`. -/
structure ChainEntry where
  call : Option SideData
  put : Option SideData
deriving DecidableEq

/-- The dict `option_chain`, modelled as an insertion-ordered association list
(Python dict) from strike to `ChainEntry`. -/
abbrev Chain := List (ℚ × ChainEntry)

/-- Python `prev_oi_dict.get(strike, {}).get("call", 0)`. -/
def prevCallOi (prev : PrevOi) (s : ℚ) : Int :=
  match findKey s prev with
  | some e => e.call
  | none => 0

/-- Python `prev_oi_dict.get(strike, {}).get("put", 0)`. -/
def prevPutOi (prev : PrevOi) (s : ℚ) : Int :=
  match findKey s prev with
  | some e => e.put
  | none => 0

/-- The guard `if strike not in option_chain: option_chain[strike] = ...`:
append a fresh two-empty-sides entry when the strike is new. -/
def ensureStrike (ch : Chain) (s : ℚ) : Chain :=
  if (findKey s ch).isSome then ch else ch ++ [(s, ⟨none, none⟩)]

/-- Assignment `option_chain[strike]["call"] = {...}` on a present strike. -/
def setCall (ch : Chain) (s : ℚ) (d : SideData) : Chain :=
  ch.map (fun p => if p.1 = s then (p.1, ⟨some d, p.2.put⟩) else p)

/-- Assignment `option_chain[strike]["put"] = {...}` on a present strike. -/
def setPut (ch : Chain) (s : ℚ) (d : SideData) : Chain :=
  ch.map (fun p => if p.1 = s then (p.1, ⟨p.2.call, some d⟩) else p)

/-- Loop state: `option_chain`, `fetch_count`, `fetch_errors`. -/
structure FetchState where
  chain : Chain
  fetch_count : Nat
  fetch_errors : Nat
deriving DecidableEq

/-- One iteration of the `for inst in nifty_options` loop.
`fetch inst = none` models any exception inside the `try` after the
`fetch_count += 1` line (the `kite.quote` call or a missing key): the
`except` arm only counts the error and moves on.  On success the strike
entry is created if absent and its `CE`/`PE` side overwritten with
`ltp`, `oi`, `chg_oi = oi - prev_oi` and `vol`; other instrument types
leave the sides untouched. -/
def stepInst (prev : PrevOi) (fetch : Instrument → Option Quote)
    (st : FetchState) (inst : Instrument) : FetchState :=
  match fetch inst with
  | none =>
    { chain := st.chain,
      fetch_count := st.fetch_count + 1,
      fetch_errors := st.fetch_errors + 1 }
  | some q =>
    let ch := ensureStrike st.chain inst.strike
    let ch :=
      if inst.instrument_type = "CE" then
        setCall ch inst.strike
          ⟨q.last_price, q.oi, q.oi - prevCallOi prev inst.strike, q.volume⟩
      else if inst.instrument_type = "PE" then
        setPut ch inst.strike
          ⟨q.last_price, q.oi, q.oi - prevPutOi prev inst.strike, q.volume⟩
      else ch
    { chain := ch,
      fetch_count := st.fetch_count + 1,
      fetch_errors := st.fetch_errors }

/-- The whole fetch loop, from the empty `option_chain` and zeroed
counters. -/
def runFetch (prev : PrevOi) (fetch : Instrument → Option Quote)
    (insts : List Instrument) : FetchState :=
  insts.foldl (stepInst prev fetch) ⟨[], 0, 0⟩

/-! ### Row construction (`fetch_data.py` lines 146–172) -/

/-- A spreadsheet cell value: a number or a string. -/
inductive Cell where
  | num (q : ℚ)
  | str (s : String)
deriving DecidableEq

/-- A row of cells. -/
abbrev Row := List Cell

/-- Python `side.get("ltp", 0)` on a possibly-empty side dict. -/
def sdLtp : Option SideData → ℚ
  | some d => d.ltp
  | none => 0

/-- Python `side.get("oi", 0)`. -/
def sdOi : Option SideData → Int
  | some d => d.oi
  | none => 0

/-- Python `side.get("chg_oi", 0)`. -/
def sdChgOi : Option SideData → Int
  | some d => d.chg_oi
  | none => 0

/-- Python `side.get("vol", 0)`. -/
def sdVol : Option SideData → Int
  | some d => d.vol
  | none => 0

/-- The `rows.append([...])` body (lines 150–162): the eleven columns
Call LTP, Call OI, Call Chg OI, Call Vol, Strike, Expiry, Put LTP,
Put OI, Put Chg OI, Put Vol, and the empty VWAP placeholder. -/
def rowOf (expiry : String) (s : ℚ) (e : ChainEntry) : Row :=
  [Cell.num (sdLtp e.call),
   Cell.num (sdOi e.call : ℚ),
   Cell.num (sdChgOi e.call : ℚ),
   Cell.num (sdVol e.call : ℚ),
   Cell.num s,
   Cell.str expiry,
   Cell.num (sdLtp e.put),
   Cell.num (sdOi e.put : ℚ),
   Cell.num (sdChgOi e.put : ℚ),
   Cell.num (sdVol e.put : ℚ),
   Cell.str ""]

/-- Model of `sorted(option_chain.items())`: sort the per-strike entries by
strike, ascending and stable (Python tuple comparison never reaches the
second component because strikes, being dict keys, are distinct). -/
def sortChain (ch : Chain) : Chain :=
  ch.insertionSort (fun a b => a.1 ≤ b.1)

/-- The `rows` block written to the sheet (lines 146–162). -/
def buildRows (expiry : String) (ch : Chain) : List Row :=
  (sortChain ch).map (fun p => rowOf expiry p.1 p.2)

/-- The literal `headers_row` (lines 167–172). -/
def headersRow : Row :=
  [Cell.str "Call LTP", Cell.str "Call OI", Cell.str "Call Chg OI",
   Cell.str "Call Vol", Cell.str "Strike", Cell.str "Expiry",
   Cell.str "Put LTP", Cell.str "Put OI", Cell.str "Put Chg OI",
   Cell.str "Put Vol", Cell.str "VWAP"]

/-- The strike cell of a built row sits at index 4. -/
def strikeOfRow (r : Row) : Option ℚ :=
  match r.get? 4 with
  | some (Cell.num q) => some q
  | _ => none

/-! ### Sheet write (`fetch_data.py` lines 174–182) -/

/-- A worksheet: a cell grid addressed by 1-based (row, column), plus
its row/column dimensions (gspread worksheet size). -/
structure Sheet where
  cell : Nat → Nat → Cell
  nRows : Nat
  nCols : Nat

/-- Model of `sheet.batch_clear([...])` on a rectangular range: every cell in the
range becomes the empty string; nothing else changes, and the sheet is
not resized. -/
def sheetClear (sh : Sheet) (top left bottom right : Nat) : Sheet :=
  { sh with cell := fun r c =>
      if top ≤ r ∧ r ≤ bottom ∧ left ≤ c ∧ c ≤ right then Cell.str ""
      else sh.cell r c }

/-- Model of `sheet.update(range, vals)`: cells inside the range that have a
corresponding value in `vals` (row-major from the top-left corner) take
that value; the rest of the sheet, and its dimensions, are untouched. -/
def sheetUpdate (sh : Sheet) (top left bottom right : Nat)
    (vals : List Row) : Sheet :=
  { sh with cell := fun r c =>
      if top ≤ r ∧ r ≤ bottom ∧ left ≤ c ∧ c ≤ right then
        match vals.get? (r - top) with
        | some row =>
          match row.get? (c - left) with
          | some v => v
          | none => sh.cell r c
        | none => sh.cell r c
      else sh.cell r c }

/-- The overwrite step (lines 174–182): `batch_clear(["A2:Z1000"])`,
then `update("A1:K1", [headers_row])`, then, when `rows` is nonempty,
`update("A2:K" ++ toString (rows.length + 1), rows)`.  Column Z is 26,
column K is 11. -/
def writeSheet (sh : Sheet) (rows : List Row) : Sheet :=
  let sh1 := sheetClear sh 2 1 1000 26
  let sh2 := sheetUpdate sh1 1 1 1 11 [headersRow]
  if rows.isEmpty then sh2
  else sheetUpdate sh2 2 1 (rows.length + 1) 11 rows

/-! ### Put/call ratio (spec-modelled) -/

/-- Rounding to two decimal places, as Python `round(x, 2)` on the exact
rational value (nearest multiple of 1/100). -/
def round2 (x : ℚ) : ℚ := ((round (x * 100) : Int) : ℚ) / 100

/-- Modelled from the spec: the PCR-and-Net-Chg-OI script variant of
§4.2 step 6 / §6 is not among the source files (src holds only the
VWAP-placeholder variant), so its PCR column is taken from the spec
verbatim: "PCR = round(put OI / call OI, 2) when call OI > 0, else 0",
computed from the per-strike call and put open interest. -/
def pcrValue (e : ChainEntry) : ℚ :=
  if 0 < sdOi e.call then
    round2 ((sdOi e.put : ℚ) / (sdOi e.call : ℚ))
  else 0

/-! ### Concrete inputs (the end-to-end scenario of spec §8, and small
environments/sheets used to instantiate the theorems) -/

/-- Prior snapshot of spec §8: strike 100 had call OI 40 and put OI 25. -/
def prevEx : PrevOi := [(100, ⟨40, 25⟩)]

/-- Catalog of spec §8: 100 CE, 100 PE, 110 CE. -/
def instsEx : List Instrument := [⟨1, 100, "CE"⟩, ⟨2, 100, "PE"⟩, ⟨3, 110, "CE"⟩]

/-- Quotes of spec §8: open interest 50, 30, 20 for the three tokens;
any other token fails to fetch. -/
def fetchEx (i : Instrument) : Option Quote :=
  if i.instrument_token = 1 then some ⟨5, 50, 7⟩
  else if i.instrument_token = 2 then some ⟨6, 30, 8⟩
  else if i.instrument_token = 3 then some ⟨4, 20, 9⟩
  else none

/-- An instrument whose quote fetch fails under `fetchEx`. -/
def badInst : Instrument := ⟨99, 120, "CE"⟩

/-- An environment with `API_KEY` unset and everything else present. -/
def envNoKey : Env := ⟨some "sheet-id", none, some "token", true⟩

/-- A worksheet filled with distinguishable non-empty cells, sized
1000 × 26. -/
def shEx : Sheet := ⟨fun r c => Cell.num ((r : ℚ) * 100 + (c : ℚ)), 1000, 26⟩

/-- A chain entry with only the put side populated. -/
def putOnlyEntry : ChainEntry := ⟨none, some ⟨1, 2, 3, 4⟩⟩

/-- A chain entry with call OI 2 and put OI 1. -/
def pcrEntryEx : ChainEntry := ⟨some ⟨1, 2, 0, 0⟩, some ⟨1, 1, 0, 0⟩⟩

/-- The invariant the fetch loop maintains on `option_chain`: every
populated side's `chg_oi` is its `oi` minus the previous open interest
recorded for that strike and side. -/
def chainInv (prev : PrevOi) (ch : Chain) : Prop :=
  ∀ p ∈ ch,
    (∀ d, p.2.call = some d → d.chg_oi = d.oi - prevCallOi prev p.1) ∧
    (∀ d, p.2.put = some d → d.chg_oi = d.oi - prevPutOi prev p.1)

/-! ## Theorems -/

/-- C2: the market-open predicate returns true exactly when the weekday
index is below 5 and the time of day lies inclusively between the open
and close bounds; in particular it is true for Monday 09:20 IST (under
both source windows), false for any Saturday time, false for 08:59 IST,
false for 15:36 IST under the 09:07–15:35 window, and both boundary
times of each window are accepted. -/
theorem market_open_pred_correct :
    (∀ openB closeB wd t,
      marketOpenPred openB closeB wd t = true ↔
        (wd < 5 ∧ openB ≤ t ∧ t ≤ closeB)) ∧
    is_market_open 0 (secOfDay 9 20 0) = true ∧
    fetchDataMarketOpen 0 (secOfDay 9 20 0) = true ∧
    (∀ t, is_market_open 5 t = false) ∧
    (∀ t, fetchDataMarketOpen 5 t = false) ∧
    is_market_open 0 (secOfDay 8 59 0) = false ∧
    fetchDataMarketOpen 0 (secOfDay 8 59 0) = false ∧
    is_market_open 0 (secOfDay 15 36 0) = false ∧
    is_market_open 0 (secOfDay 9 7 0) = true ∧
    is_market_open 0 (secOfDay 15 35 0) = true ∧
    fetchDataMarketOpen 0 (secOfDay 9 10 0) = true ∧
    fetchDataMarketOpen 0 (secOfDay 15 35 0) = true := by
  refine ⟨fun openB closeB wd t => ?_, by decide, by decide, fun t => ?_,
    fun t => ?_, by decide, by decide, by decide, by decide, by decide,
    by decide, by decide⟩
  · simp [marketOpenPred, Bool.and_eq_true, and_assoc]
  · simp [is_market_open, marketOpenPred]
  · simp [fetchDataMarketOpen, marketOpenPred]

/-- C9: the market gate of `fetch_data.py` runs before any credential
validation: whenever its 09:10–15:35 weekday window test fails, the
script exits with status 0 and its trace is just the market-closed
exit — no `API_KEY`/`ACCESS_TOKEN` check, no `SHEET_ID`/credentials
check, no network call — so missing credentials can never raise while
the market is closed. -/
theorem market_gate_before_credential_checks :
    ∀ (env : Env) (wd t : Nat), fetchDataMarketOpen wd t = false →
      startupOutcome env wd t = Outcome.exitZero ∧
      startupTrace env wd t = [Event.exitMarketClosed] ∧
      startupOutcome env wd t ≠ Outcome.raised := by
  intro env wd t h
  refine ⟨?_, ?_, ?_⟩ <;> simp [startupOutcome, startupTrace, h]

/-- Witness for C9: Saturday noon with every credential missing still
exits with status 0 and performs no checks or network calls. -/
theorem market_gate_before_credential_checks_witness :
    startupOutcome ⟨none, none, none, false⟩ 5 (secOfDay 12 0 0) =
        Outcome.exitZero ∧
      startupTrace ⟨none, none, none, false⟩ 5 (secOfDay 12 0 0) =
        [Event.exitMarketClosed] :=
  ⟨(market_gate_before_credential_checks ⟨none, none, none, false⟩ 5
      (secOfDay 12 0 0) (by decide)).1,
   (market_gate_before_credential_checks ⟨none, none, none, false⟩ 5
      (secOfDay 12 0 0) (by decide)).2.1⟩

/-- Counterexample to C5 as stated: a run started on a Saturday with
`API_KEY` absent terminates via `sys.exit(0)` at the market gate, not by
raising — so "every run with a missing key raises" is false. -/
theorem missing_key_no_raise_when_closed :
    envNoKey.apiKey = none ∧
    startupOutcome envNoKey 5 (secOfDay 9 20 0) = Outcome.exitZero ∧
    startupOutcome envNoKey 5 (secOfDay 9 20 0) ≠ Outcome.raised := by
  decide

/-- C5 (amended): for every run in which the market gate passes and
`API_KEY` or `ACCESS_TOKEN` is absent (falsy), the script raises at the
credential check, before any network call to the quote provider or
spreadsheet store is attempted. -/
theorem missing_keys_raise_before_network :
    ∀ (env : Env) (wd t : Nat),
      fetchDataMarketOpen wd t = true →
      (truthy env.apiKey = false ∨ truthy env.accessToken = false) →
      startupOutcome env wd t = Outcome.raised ∧
      ∀ s, Event.netCall s ∉ startupTrace env wd t := by
  intro env wd t hopen hmiss
  rcases hmiss with hm | hm <;>
    refine ⟨by simp [startupOutcome, hopen, hm], fun s => ?_⟩ <;>
    simp [startupTrace, hopen, hm]

/-- Witness for C5 (amended): Monday 09:20 with `API_KEY` unset raises
and attempts no network call. -/
theorem missing_keys_raise_before_network_witness :
    startupOutcome envNoKey 0 (secOfDay 9 20 0) = Outcome.raised ∧
      Event.netCall "client.open_by_key" ∉
        startupTrace envNoKey 0 (secOfDay 9 20 0) :=
  ⟨(missing_keys_raise_before_network envNoKey 0 (secOfDay 9 20 0)
      (by decide) (Or.inl (by decide))).1,
   (missing_keys_raise_before_network envNoKey 0 (secOfDay 9 20 0)
      (by decide) (Or.inl (by decide))).2 "client.open_by_key"⟩

/-- The function `ensureStrike` preserves the chain invariant: a freshly created
entry has both sides empty. -/
theorem chainInv_ensureStrike {prev : PrevOi} {ch : Chain} (s : ℚ)
    (h : chainInv prev ch) : chainInv prev (ensureStrike ch s) := by
  unfold ensureStrike
  split
  · exact h
  · intro p hp
    rcases List.mem_append.1 hp with hp | hp
    · exact h p hp
    · rcases List.mem_singleton.1 hp with rfl
      exact ⟨fun d hd => (nomatch hd), fun d hd => (nomatch hd)⟩

/-- The function `setCall` preserves the chain invariant when the written side data
already satisfies it at the written strike. -/
theorem chainInv_setCall {prev : PrevOi} {ch : Chain} {s : ℚ}
    {d : SideData} (h : chainInv prev ch)
    (hd : d.chg_oi = d.oi - prevCallOi prev s) :
    chainInv prev (setCall ch s d) := by
  intro p hp
  rcases List.mem_map.1 hp with ⟨q, hq, rfl⟩
  by_cases hqs : q.1 = s
  · subst hqs
    simp only [if_pos rfl]
    exact ⟨fun d' hd' => by cases hd'; exact hd, fun d' hd' => (h q hq).2 d' hd'⟩
  · simp only [if_neg hqs]
    exact h q hq

/-- The function `setPut` preserves the chain invariant when the written side data
already satisfies it at the written strike. -/
theorem chainInv_setPut {prev : PrevOi} {ch : Chain} {s : ℚ}
    {d : SideData} (h : chainInv prev ch)
    (hd : d.chg_oi = d.oi - prevPutOi prev s) :
    chainInv prev (setPut ch s d) := by
  intro p hp
  rcases List.mem_map.1 hp with ⟨q, hq, rfl⟩
  by_cases hqs : q.1 = s
  · subst hqs
    simp only [if_pos rfl]
    exact ⟨fun d' hd' => (h q hq).1 d' hd', fun d' hd' => by cases hd'; exact hd⟩
  · simp only [if_neg hqs]
    exact h q hq

/-- One loop iteration preserves the chain invariant. -/
theorem chainInv_stepInst (prev : PrevOi) (fetch : Instrument → Option Quote)
    (st : FetchState) (inst : Instrument) (h : chainInv prev st.chain) :
    chainInv prev (stepInst prev fetch st inst).chain := by
  unfold stepInst
  cases hq : fetch inst with
  | none => exact h
  | some q =>
    simp only
    split
    · exact chainInv_setCall (chainInv_ensureStrike inst.strike h) rfl
    · split
      · exact chainInv_setPut (chainInv_ensureStrike inst.strike h) rfl
      · exact chainInv_ensureStrike inst.strike h

/-- The whole fetch loop maintains the chain invariant. -/
theorem chainInv_foldl (prev : PrevOi) (fetch : Instrument → Option Quote) :
    ∀ (insts : List Instrument) (st : FetchState), chainInv prev st.chain →
      chainInv prev (insts.foldl (stepInst prev fetch) st).chain := by
  intro insts
  induction insts with
  | nil => intro st h; exact h
  | cons i rest ih =>
    intro st h
    exact ih (stepInst prev fetch st i) (chainInv_stepInst prev fetch st i h)

/-- C1: in the chain built by the fetch loop, every populated call/put
side has `chg_oi` equal to the currently fetched open interest minus the
previous open interest recorded for that strike and side in the prior
table snapshot, and equal to the current open interest minus zero when
the prior snapshot has no entry for that strike. -/
theorem chg_oi_eq_oi_sub_prev :
    ∀ (prev : PrevOi) (fetch : Instrument → Option Quote)
      (insts : List Instrument) (s : ℚ) (e : ChainEntry),
      (s, e) ∈ (runFetch prev fetch insts).chain →
      (∀ d, e.call = some d →
        (∀ pe, findKey s prev = some pe → d.chg_oi = d.oi - pe.call) ∧
        (findKey s prev = none → d.chg_oi = d.oi - 0)) ∧
      (∀ d, e.put = some d →
        (∀ pe, findKey s prev = some pe → d.chg_oi = d.oi - pe.put) ∧
        (findKey s prev = none → d.chg_oi = d.oi - 0)) := by
  intro prev fetch insts s e hmem
  have hinv := chainInv_foldl prev fetch insts ⟨[], 0, 0⟩
    (fun p hp => absurd hp (List.not_mem_nil p))
  have h := hinv (s, e) hmem
  refine ⟨fun d hd => ?_, fun d hd => ?_⟩
  · have hc := h.1 d hd
    constructor
    · intro pe hpe
      rw [hc]
      simp [prevCallOi, hpe]
    · intro hnone
      rw [hc]
      simp [prevCallOi, hnone]
  · have hc := h.2 d hd
    constructor
    · intro pe hpe
      rw [hc]
      simp [prevPutOi, hpe]
    · intro hnone
      rw [hc]
      simp [prevPutOi, hnone]

/-- Witness for C1, on the end-to-end scenario of spec §8: the call side
of strike 100 carries `chg_oi = 10 = 50 - 40` against the prior snapshot
entry `{call: 40, put: 25}`. -/
theorem chg_oi_eq_oi_sub_prev_witness :
    (SideData.mk 5 50 10 7).chg_oi =
      (SideData.mk 5 50 10 7).oi - (PrevEntry.mk 40 25).call := by
  have hmem : ((100 : ℚ),
      ChainEntry.mk (some (SideData.mk 5 50 10 7))
        (some (SideData.mk 6 30 5 8))) ∈
      (runFetch prevEx fetchEx instsEx).chain := by decide
  exact ((chg_oi_eq_oi_sub_prev prevEx fetchEx instsEx 100 _ hmem).1
    (SideData.mk 5 50 10 7) rfl).1 (PrevEntry.mk 40 25) (by decide)

/-- The chain component of one loop iteration depends only on the chain
component of the incoming state, never on the counters. -/
theorem stepInst_chain_congr (prev : PrevOi)
    (fetch : Instrument → Option Quote) (st₁ st₂ : FetchState)
    (inst : Instrument) (h : st₁.chain = st₂.chain) :
    (stepInst prev fetch st₁ inst).chain =
      (stepInst prev fetch st₂ inst).chain := by
  unfold stepInst
  cases fetch inst <;> simp [h]

/-- Folding the loop over states with equal chains yields equal chains. -/
theorem foldl_chain_congr (prev : PrevOi)
    (fetch : Instrument → Option Quote) :
    ∀ (insts : List Instrument) (st₁ st₂ : FetchState),
      st₁.chain = st₂.chain →
      (insts.foldl (stepInst prev fetch) st₁).chain =
        (insts.foldl (stepInst prev fetch) st₂).chain := by
  intro insts
  induction insts with
  | nil => intro st₁ st₂ h; exact h
  | cons i rest ih =>
    intro st₁ st₂ h
    exact ih _ _ (stepInst_chain_congr prev fetch st₁ st₂ i h)

/-- The counter `fetch_count` grows by exactly one per instrument, fetched or not. -/
theorem foldl_fetch_count (prev : PrevOi)
    (fetch : Instrument → Option Quote) :
    ∀ (insts : List Instrument) (st : FetchState),
      (insts.foldl (stepInst prev fetch) st).fetch_count =
        st.fetch_count + insts.length := by
  intro insts
  induction insts with
  | nil => intro st; rfl
  | cons i rest ih =>
    intro st
    rw [List.foldl_cons, ih]
    have hstep : (stepInst prev fetch st i).fetch_count =
        st.fetch_count + 1 := by
      unfold stepInst
      cases fetch i <;> simp
    rw [hstep, List.length_cons]
    omega

/-- The counter `fetch_errors` grows by exactly the number of failing fetches. -/
theorem foldl_fetch_errors (prev : PrevOi)
    (fetch : Instrument → Option Quote) :
    ∀ (insts : List Instrument) (st : FetchState),
      (insts.foldl (stepInst prev fetch) st).fetch_errors =
        st.fetch_errors + insts.countP (fun i => (fetch i).isNone) := by
  intro insts
  induction insts with
  | nil => intro st; simp
  | cons i rest ih =>
    intro st
    rw [List.foldl_cons, ih]
    cases hq : fetch i with
    | none => simp [stepInst, hq, List.countP_cons]; omega
    | some q => simp [stepInst, hq, List.countP_cons]

/-- C7: a quote-fetch failure for one instrument is skipped without
aborting the loop: the chain built from the batch with the failing
instrument equals the chain built from the remaining instruments alone,
the instrument is still counted in `fetch_count`, and `fetch_errors`
records exactly one more error. -/
theorem fetch_failure_skips_instrument :
    ∀ (prev : PrevOi) (fetch : Instrument → Option Quote)
      (xs ys : List Instrument) (b : Instrument), fetch b = none →
      (runFetch prev fetch (xs ++ b :: ys)).chain =
        (runFetch prev fetch (xs ++ ys)).chain ∧
      (runFetch prev fetch (xs ++ b :: ys)).fetch_count =
        (runFetch prev fetch (xs ++ ys)).fetch_count + 1 ∧
      (runFetch prev fetch (xs ++ b :: ys)).fetch_errors =
        (runFetch prev fetch (xs ++ ys)).fetch_errors + 1 := by
  intro prev fetch xs ys b hb
  unfold runFetch
  rw [List.foldl_append, List.foldl_append, List.foldl_cons]
  refine ⟨?_, ?_, ?_⟩
  · apply foldl_chain_congr
    unfold stepInst
    rw [hb]
  · rw [foldl_fetch_count, foldl_fetch_count]
    have hstep : (stepInst prev fetch (xs.foldl (stepInst prev fetch)
        ⟨[], 0, 0⟩) b).fetch_count =
        (xs.foldl (stepInst prev fetch) ⟨[], 0, 0⟩).fetch_count + 1 := by
      unfold stepInst
      rw [hb]
    rw [hstep]
    omega
  · rw [foldl_fetch_errors, foldl_fetch_errors]
    have hstep : (stepInst prev fetch (xs.foldl (stepInst prev fetch)
        ⟨[], 0, 0⟩) b).fetch_errors =
        (xs.foldl (stepInst prev fetch) ⟨[], 0, 0⟩).fetch_errors + 1 := by
      unfold stepInst
      rw [hb]
    rw [hstep]
    omega

/-- Witness for C7: appending an instrument whose quote fetch fails to
the spec §8 batch leaves the chain unchanged and bumps both counters. -/
theorem fetch_failure_skips_instrument_witness :
    (runFetch prevEx fetchEx (instsEx ++ badInst :: [])).chain =
        (runFetch prevEx fetchEx (instsEx ++ [])).chain ∧
      (runFetch prevEx fetchEx (instsEx ++ badInst :: [])).fetch_count =
        (runFetch prevEx fetchEx (instsEx ++ [])).fetch_count + 1 ∧
      (runFetch prevEx fetchEx (instsEx ++ badInst :: [])).fetch_errors =
        (runFetch prevEx fetchEx (instsEx ++ [])).fetch_errors + 1 :=
  fetch_failure_skips_instrument prevEx fetchEx instsEx [] badInst
    (by decide)

/-- A strike that `findKey` misses is not among the keys. -/
theorem not_mem_keys_of_findKey_none {α : Type} :
    ∀ (l : List (ℚ × α)) (k : ℚ), findKey k l = none →
      k ∉ l.map Prod.fst := by
  intro l
  induction l with
  | nil => intro k _ h; simp at h
  | cons p rest ih =>
    intro k hfind hmem
    rw [findKey] at hfind
    by_cases hp : p.1 = k
    · rw [if_pos hp] at hfind; cases hfind
    · rw [if_neg hp] at hfind
      rcases List.mem_cons.1 hmem with h | h
      · exact hp h.symm
      · exact ih k hfind h

/-- The function `setCall` leaves the strike keys unchanged. -/
theorem setCall_keys (ch : Chain) (s : ℚ) (d : SideData) :
    (setCall ch s d).map Prod.fst = ch.map Prod.fst := by
  unfold setCall
  rw [List.map_map]
  apply List.map_congr_left
  intro p _
  by_cases hp : p.1 = s <;> simp [hp]

/-- The function `setPut` leaves the strike keys unchanged. -/
theorem setPut_keys (ch : Chain) (s : ℚ) (d : SideData) :
    (setPut ch s d).map Prod.fst = ch.map Prod.fst := by
  unfold setPut
  rw [List.map_map]
  apply List.map_congr_left
  intro p _
  by_cases hp : p.1 = s <;> simp [hp]

/-- The function `ensureStrike` keeps the strike keys duplicate-free. -/
theorem ensureStrike_keys_nodup {ch : Chain} (s : ℚ)
    (h : (ch.map Prod.fst).Nodup) :
    ((ensureStrike ch s).map Prod.fst).Nodup := by
  unfold ensureStrike
  cases hfind : findKey s ch with
  | some e => simpa using h
  | none =>
    simp only [Option.isSome_none, Bool.false_eq_true, if_false,
      List.map_append]
    rw [List.nodup_append]
    refine ⟨h, List.nodup_singleton s, ?_⟩
    intro a ha hb
    simp only [List.map_cons, List.map_nil, List.mem_singleton] at hb
    subst hb
    exact not_mem_keys_of_findKey_none ch a hfind ha

/-- One loop iteration keeps the strike keys duplicate-free. -/
theorem stepInst_keys_nodup (prev : PrevOi)
    (fetch : Instrument → Option Quote) (st : FetchState)
    (inst : Instrument) (h : (st.chain.map Prod.fst).Nodup) :
    (((stepInst prev fetch st inst).chain).map Prod.fst).Nodup := by
  unfold stepInst
  cases fetch inst with
  | none => exact h
  | some q =>
    simp only
    split
    · rw [setCall_keys]
      exact ensureStrike_keys_nodup inst.strike h
    · split
      · rw [setPut_keys]
        exact ensureStrike_keys_nodup inst.strike h
      · exact ensureStrike_keys_nodup inst.strike h

/-- The fetch loop builds a chain whose strike keys are duplicate-free. -/
theorem runFetch_keys_nodup (prev : PrevOi)
    (fetch : Instrument → Option Quote) (insts : List Instrument) :
    (((runFetch prev fetch insts).chain).map Prod.fst).Nodup := by
  unfold runFetch
  have hgen : ∀ (l : List Instrument) (st : FetchState),
      (st.chain.map Prod.fst).Nodup →
      (((l.foldl (stepInst prev fetch) st).chain).map Prod.fst).Nodup := by
    intro l
    induction l with
    | nil => intro st h; exact h
    | cons i rest ih =>
      intro st h
      exact ih _ (stepInst_keys_nodup prev fetch st i h)
  exact hgen insts ⟨[], 0, 0⟩ (by simp)

/-- The relation `sorted(option_chain.items())` sorts by is total. -/
instance : IsTotal (ℚ × ChainEntry) (fun a b => a.1 ≤ b.1) :=
  ⟨fun a b => le_total a.1 b.1⟩

/-- The relation `sorted(option_chain.items())` sorts by is transitive. -/
instance : IsTrans (ℚ × ChainEntry) (fun a b => a.1 ≤ b.1) :=
  ⟨fun _ _ _ hab hbc => le_trans hab hbc⟩

/-- The strike cell of every built row is its chain strike. -/
theorem strikeOfRow_rowOf (expiry : String) (s : ℚ) (e : ChainEntry) :
    strikeOfRow (rowOf expiry s e) = some s := rfl

/-- Extracting the strike cells of the built rows yields exactly the
sorted strike keys. -/
theorem filterMap_strikeOfRow_buildRows (expiry : String) (ch : Chain) :
    (buildRows expiry ch).filterMap strikeOfRow =
      (sortChain ch).map Prod.fst := by
  unfold buildRows
  rw [List.filterMap_map]
  have : (strikeOfRow ∘ fun p : ℚ × ChainEntry => rowOf expiry p.1 p.2) =
      some ∘ Prod.fst := by
    funext p
    exact strikeOfRow_rowOf expiry p.1 p.2
  rw [this, List.filterMap_eq_map]

/-- C3: for every fetch outcome, the built block of data rows has
duplicate-free strike keys, every row carries a strike cell, the rows'
strikes are exactly the strikes present in the chain (one row per
distinct strike), they appear in strictly ascending order, and there are
as many rows as chain strikes. -/
theorem rows_unique_per_strike_sorted :
    ∀ (prev : PrevOi) (fetch : Instrument → Option Quote)
      (insts : List Instrument) (expiry : String),
      (((runFetch prev fetch insts).chain).map Prod.fst).Nodup ∧
      (∀ r ∈ buildRows expiry (runFetch prev fetch insts).chain,
        strikeOfRow r ≠ none) ∧
      List.Perm
        ((buildRows expiry (runFetch prev fetch insts).chain).filterMap
          strikeOfRow)
        (((runFetch prev fetch insts).chain).map Prod.fst) ∧
      List.Pairwise (fun a b => a < b)
        ((buildRows expiry (runFetch prev fetch insts).chain).filterMap
          strikeOfRow) ∧
      (buildRows expiry (runFetch prev fetch insts).chain).length =
        ((runFetch prev fetch insts).chain).length := by
  intro prev fetch insts expiry
  have hnodup := runFetch_keys_nodup prev fetch insts
  have hfm := filterMap_strikeOfRow_buildRows expiry
    (runFetch prev fetch insts).chain
  have hsortperm : List.Perm (sortChain (runFetch prev fetch insts).chain)
      ((runFetch prev fetch insts).chain) :=
    List.perm_insertionSort _ _
  have hkeysperm : List.Perm
      ((sortChain (runFetch prev fetch insts).chain).map Prod.fst)
      (((runFetch prev fetch insts).chain).map Prod.fst) :=
    hsortperm.map Prod.fst
  have hsorted : List.Pairwise (fun a b : ℚ × ChainEntry => a.1 ≤ b.1)
      (sortChain (runFetch prev fetch insts).chain) :=
    List.sorted_insertionSort _ _
  have hkeyssorted : List.Pairwise (fun a b : ℚ => a ≤ b)
      ((sortChain (runFetch prev fetch insts).chain).map Prod.fst) :=
    hsorted.map Prod.fst (fun _ _ h => h)
  have hkeysnodup : ((sortChain (runFetch prev fetch insts).chain).map
      Prod.fst).Nodup :=
    hkeysperm.symm.nodup hnodup
  refine ⟨hnodup, ?_, ?_, ?_, ?_⟩
  · intro r hr
    unfold buildRows at hr
    rcases List.mem_map.1 hr with ⟨p, _, rfl⟩
    rw [strikeOfRow_rowOf]
    exact Option.some_ne_none p.1
  · rw [hfm]
    exact hkeysperm
  · rw [hfm]
    exact (hkeyssorted.and hkeysnodup).imp
      (fun h => lt_of_le_of_ne h.1 h.2)
  · unfold buildRows
    rw [List.length_map]
    exact hsortperm.length_eq

/-- Witness for C3: on the spec §8 scenario the strike-100 row is among
the built rows and carries its strike cell. -/
theorem rows_unique_per_strike_sorted_witness :
    strikeOfRow (rowOf "2026-01-15" 100
      (ChainEntry.mk (some (SideData.mk 5 50 10 7))
        (some (SideData.mk 6 30 5 8)))) ≠ none :=
  (rows_unique_per_strike_sorted prevEx fetchEx instsEx "2026-01-15").2.1
    _ (by decide)

/-- Folding the row parser skips unparseable rows without affecting the
accumulated mapping. -/
theorem foldl_parse_filter (sc cc pc : Nat) :
    ∀ (rows : List (List String)) (acc : PrevOi),
      rows.foldl
        (fun d row =>
          match parsePrevRow sc cc pc row with
          | some sv => dictInsert d sv.1 sv.2
          | none => d) acc =
      (rows.filter (fun row => (parsePrevRow sc cc pc row).isSome)).foldl
        (fun d row =>
          match parsePrevRow sc cc pc row with
          | some sv => dictInsert d sv.1 sv.2
          | none => d) acc := by
  intro rows
  induction rows with
  | nil => intro acc; rfl
  | cons r rest ih =>
    intro acc
    rw [List.foldl_cons]
    cases hp : parsePrevRow sc cc pc r with
    | none =>
      rw [List.filter_cons_of_neg (by simp [hp])]
      simp only [hp]
      exact ih acc
    | some sv =>
      rw [List.filter_cons_of_pos (by simp [hp]), List.foldl_cons]
      simp only [hp]
      exact ih (dictInsert acc sv.1 sv.2)

/-- C6: a destination table whose first row misses any of the labels
`Strike`, `Call OI`, `Put OI` yields an empty previous-open-interest
mapping (the routine does not fail: `buildPrevOi` is total); when the
labels are present, data rows whose strike or OI cells do not parse are
skipped silently — the mapping equals the one built from the parseable
rows alone. -/
theorem prev_oi_headers_and_skip :
    (∀ (headers : List String) (dataRows : List (List String)),
      ¬("Strike" ∈ headers ∧ "Call OI" ∈ headers ∧ "Put OI" ∈ headers) →
        buildPrevOi (headers :: dataRows) = []) ∧
    (∀ (headers : List String) (dataRows : List (List String)),
      buildPrevOi (headers :: dataRows) =
        buildPrevOi (headers :: dataRows.filter (fun row =>
          (parsePrevRow (headers.findIdx (fun h => h == "Strike"))
            (headers.findIdx (fun h => h == "Call OI"))
            (headers.findIdx (fun h => h == "Put OI")) row).isSome))) := by
  constructor
  · intro headers dataRows hmiss
    simp only [buildPrevOi, if_neg hmiss]
  · intro headers dataRows
    by_cases hh : "Strike" ∈ headers ∧ "Call OI" ∈ headers ∧
        "Put OI" ∈ headers
    · simp only [buildPrevOi, if_pos hh]
      exact foldl_parse_filter _ _ _ dataRows []
    · simp only [buildPrevOi, if_neg hh]

/-- Witness for C6: a table headed `Foo` yields the empty mapping. -/
theorem prev_oi_headers_and_skip_witness :
    ¬(("Strike" : String) ∈ (["Foo"] : List String) ∧
        ("Call OI" : String) ∈ (["Foo"] : List String) ∧
        ("Put OI" : String) ∈ (["Foo"] : List String)) ∧
      buildPrevOi [["Foo"], ["100", "40", "25"]] = [] :=
  ⟨by decide,
   prev_oi_headers_and_skip.1 ["Foo"] [["100", "40", "25"]] (by decide)⟩

/-- C8: the overwrite step changes no cell outside the cleared range
A2:Z1000, the header range A1:K1 and the data range A2:K(len(rows)+1),
and never resizes the sheet. -/
theorem write_touches_only_ranges :
    ∀ (sh : Sheet) (rows : List Row),
      (∀ r c,
        ¬(r = 1 ∧ 1 ≤ c ∧ c ≤ 11) →
        ¬(2 ≤ r ∧ r ≤ 1000 ∧ 1 ≤ c ∧ c ≤ 26) →
        ¬(2 ≤ r ∧ r ≤ rows.length + 1 ∧ 1 ≤ c ∧ c ≤ 11) →
        (writeSheet sh rows).cell r c = sh.cell r c) ∧
      (writeSheet sh rows).nRows = sh.nRows ∧
      (writeSheet sh rows).nCols = sh.nCols := by
  intro sh rows
  refine ⟨?_, ?_, ?_⟩
  · intro r c hhead hclear hdata
    have h1 : ¬(1 ≤ r ∧ r ≤ 1 ∧ 1 ≤ c ∧ c ≤ 11) := by omega
    have h2 : ¬(2 ≤ r ∧ r ≤ 1000 ∧ 1 ≤ c ∧ c ≤ 26) := hclear
    have h3 : ¬(2 ≤ r ∧ r ≤ rows.length + 1 ∧ 1 ≤ c ∧ c ≤ 11) := hdata
    unfold writeSheet sheetUpdate sheetClear
    by_cases hre : rows.isEmpty <;>
      simp [hre, if_neg h1, if_neg h2, if_neg h3]
  · unfold writeSheet sheetUpdate sheetClear
    by_cases hre : rows.isEmpty <;> simp [hre]
  · unfold writeSheet sheetUpdate sheetClear
    by_cases hre : rows.isEmpty <;> simp [hre]

/-- Witness for C8: on a fully populated 1000×26 sheet, writing no data
rows leaves cell L1 (row 1, column 12) and the dimensions untouched. -/
theorem write_touches_only_ranges_witness :
    (writeSheet shEx []).cell 1 12 = shEx.cell 1 12 ∧
      (writeSheet shEx []).nRows = shEx.nRows ∧
      (writeSheet shEx []).nCols = shEx.nCols :=
  ⟨(write_touches_only_ranges shEx []).1 1 12 (by decide) (by decide)
      (by decide),
   (write_touches_only_ranges shEx []).2.1,
   (write_touches_only_ranges shEx []).2.2⟩

/-- C10: every built row has all eleven columns, and a strike whose
chain entry lacks the call (resp. put) side gets 0 in its Call (resp.
Put) LTP, OI, Chg OI and Vol cells. -/
theorem one_sided_row_defaults :
    ∀ (expiry : String) (s : ℚ) (e : ChainEntry),
      (rowOf expiry s e).length = 11 ∧
      (e.call = none →
        (rowOf expiry s e).get? 0 = some (Cell.num 0) ∧
        (rowOf expiry s e).get? 1 = some (Cell.num 0) ∧
        (rowOf expiry s e).get? 2 = some (Cell.num 0) ∧
        (rowOf expiry s e).get? 3 = some (Cell.num 0)) ∧
      (e.put = none →
        (rowOf expiry s e).get? 6 = some (Cell.num 0) ∧
        (rowOf expiry s e).get? 7 = some (Cell.num 0) ∧
        (rowOf expiry s e).get? 8 = some (Cell.num 0) ∧
        (rowOf expiry s e).get? 9 = some (Cell.num 0)) := by
  intro expiry s e
  refine ⟨rfl, fun h => ?_, fun h => ?_⟩ <;>
    simp [rowOf, sdLtp, sdOi, sdChgOi, sdVol, h]

/-- Witness for C10: a put-only entry's row carries zeros in the four
call cells. -/
theorem one_sided_row_defaults_witness :
    (rowOf "2026-01-15" 100 putOnlyEntry).get? 0 = some (Cell.num 0) ∧
      (rowOf "2026-01-15" 100 putOnlyEntry).length = 11 :=
  ⟨((one_sided_row_defaults "2026-01-15" 100 putOnlyEntry).2.1 rfl).1,
   (one_sided_row_defaults "2026-01-15" 100 putOnlyEntry).1⟩

/-- C4 (spec-modelled): the PCR value computed for a strike equals
`round(put_oi / call_oi, 2)` when the call-side open interest is
positive, and 0 otherwise. -/
theorem pcr_round_or_zero :
    ∀ (e : ChainEntry),
      (0 < sdOi e.call →
        pcrValue e = round2 ((sdOi e.put : ℚ) / (sdOi e.call : ℚ))) ∧
      (¬0 < sdOi e.call → pcrValue e = 0) := by
  intro e
  constructor <;> intro h <;> simp [pcrValue, h]

/-- Witness for C4: call OI 2, put OI 1 gives PCR `round2 (1/2)`. -/
theorem pcr_round_or_zero_witness :
    0 < sdOi pcrEntryEx.call ∧
      pcrValue pcrEntryEx =
        round2 ((sdOi pcrEntryEx.put : ℚ) / (sdOi pcrEntryEx.call : ℚ)) :=
  ⟨by decide, (pcr_round_or_zero pcrEntryEx).1 (by decide)⟩

end Kite
